import Mathlib

/-!
Verification of the moviepy `VideoClip.py` core: text layout engine
(`break_text`, `find_text_size`, `find_optimum_font_size`), the blit
position/size logic of `VideoClip.blit_on`, the shallow-copy semantics of
`VideoClip.__copy__`, the `to_mask`/`to_RGB` round trip, `BitmapClip`,
`TextClip`/`ColorClip` argument validation, and the eager image transform of
`ImageClip`.

Pixel measurements performed by PIL (an external library) are abstracted as
function parameters; everything else is translated directly from the source.
-/

set_option autoImplicit false

namespace Moviepy

/-! ### Text layout engine: `break_text` (VideoClip.py lines 1247-1273)

The PIL call `draw.multiline_textbbox(...)` that measures a line's pixel
width is external; it is passed in as `measure : String → ℕ` (the width
`temp_right - temp_left` of the rendered string, for the fixed font,
font size, stroke width, align and spacing of the enclosing call). -/

/-- Helper for `pySplitSpace`: walk the characters, cutting at every
space. -/
def pySplitSpaceAux : List Char → String → List String
  | [], cur => [cur]
  | c :: cs, cur =>
      if c == ' ' then cur :: pySplitSpaceAux cs "" else pySplitSpaceAux cs (cur.push c)

/-- Python `text.split(' ')`: split at every single space character, keeping
empty pieces (`''.split(' ') == ['']`). -/
def pySplitSpace (text : String) : List String :=
  pySplitSpaceAux text.toList ""

/-- Loop body of `break_text`: fold over the remaining `words`, carrying the
accumulated `lines` and the `current_line`, exactly as the Python `for` loop.
`temp_line = (current_line + ' ' + word if current_line else word)`; the word
is accepted into the current line when the measured tentative width is
`<= width`, otherwise the current line is flushed and the word starts a new
line.  At the end the trailing `current_line` is flushed when non-empty. -/
def break_textAux (measure : String → ℕ) (width : ℕ) :
    List String → List String → String → List String
  | [], lines, current_line =>
      if current_line ≠ "" then lines ++ [current_line] else lines
  | word :: words, lines, current_line =>
      let temp_line := if current_line ≠ "" then current_line ++ " " ++ word else word
      if measure temp_line ≤ width then
        break_textAux measure width words lines temp_line
      else
        break_textAux measure width words (lines ++ [current_line]) word

/-- `break_text(width, text, ...)`: greedy word wrap of `text` into lines of
measured width at most `width`.  `words = text.split(' ')`. -/
def break_text (measure : String → ℕ) (width : ℕ) (text : String) : List String :=
  break_textAux measure width (pySplitSpace text) [] ""

/-! ### `find_text_size` (lines 1275-1296)

The external PIL bounding-box measurement of a (possibly multi-line) string
at a given font size is abstracted as `measure2 : ℕ → String → ℕ × ℕ`
(font size, text ↦ (width, height) of the box, all other font parameters
fixed). -/

/-- `find_text_size(text, ..., font_size, ..., max_width, allow_break)`:
if `max_width is None or not allow_break`, measure `text` as given;
otherwise wrap it with `break_text` at `max_width` and measure the wrapped
text (lines joined with newlines). -/
def find_text_size (measure2 : ℕ → String → ℕ × ℕ) (text : String) (font_size : ℕ)
    (max_width : Option ℕ) (allow_break : Bool) : ℕ × ℕ :=
  match max_width, allow_break with
  | some w, true =>
      measure2 font_size
        (String.intercalate "\n"
          (break_text (fun s => (measure2 font_size s).1) w text))
  | _, _ => measure2 font_size text

/-! ### `find_optimum_font_size` (lines 1298-1322) -/

/-- The fit test used by each bisection probe of `find_optimum_font_size`:
`text_width <= width and (height is None or text_height <= height)` where
`(text_width, text_height) = find_text_size(text, font, s, ..., max_width=width,
allow_break=allow_break)`. -/
def fos_fits (measure2 : ℕ → String → ℕ × ℕ) (text : String) (width : ℕ)
    (height : Option ℕ) (allow_break : Bool) (s : ℕ) : Bool :=
  let wh := find_text_size measure2 text s (some width) allow_break
  decide (wh.1 ≤ width ∧ ∀ h ∈ height, wh.2 ≤ h)

/-- The `while min_font_size < max_font_size` bisection loop of
`find_optimum_font_size`, written with an explicit fuel argument so that it
is structurally recursive (`fosLoop` below supplies enough fuel for the fuel
never to run out; see `fosLoopF_fuel`).  Each iteration probes
`avg = (max + min) // 2`; on fit `min = avg + 1`, otherwise `max = avg - 1`. -/
def fosLoopF (fits : ℕ → Bool) : ℕ → ℕ → ℕ → ℕ
  | 0, min_font_size, _ => min_font_size
  | fuel + 1, min_font_size, max_font_size =>
      if min_font_size < max_font_size then
        let avg_font_size := (max_font_size + min_font_size) / 2
        if fits avg_font_size then
          fosLoopF fits fuel (avg_font_size + 1) max_font_size
        else
          fosLoopF fits fuel min_font_size (avg_font_size - 1)
      else min_font_size

/-- The bisection loop with adequate fuel: `max + 1 - min` strictly bounds the
number of iterations. -/
def fosLoop (fits : ℕ → Bool) (min_font_size max_font_size : ℕ) : ℕ :=
  fosLoopF fits (max_font_size + 1 - min_font_size) min_font_size max_font_size

/-- `find_optimum_font_size(text, font, ..., width, height, allow_break)`:
bisection over `[1, width]` with the probe test `fits`, then the final
candidate `min_font_size` is re-measured; it is returned when it fits and
decremented by one otherwise. -/
def find_optimum_font_size (fits : ℕ → Bool) (width : ℕ) : ℕ :=
  let m := fosLoop fits 1 width
  if fits m then m else m - 1

/-! ### `VideoClip.blit_on`, position resolution (lines 614-645)

Python's `int()` truncates toward zero, and numeric position components may
be floats, so coordinates are modelled as rationals truncated by `pyInt`. -/

/-- A component of a position: either a named anchor string or a number. -/
inductive PosC where
  | str (s : String)
  | num (q : ℚ)
deriving DecidableEq

/-- The `pos` value returned by `self.pos(ct)`: either a single shortcut
string or a pair of components. -/
inductive PosSpec where
  | single (s : String)
  | pair (x y : PosC)

/-- The shortcut dictionary expanding a single-string position into a pair
(a missing key is a Python `KeyError`, modelled as `none`). -/
def posShortcuts : String → Option (PosC × PosC)
  | "center" => some (PosC.str "center", PosC.str "center")
  | "left" => some (PosC.str "left", PosC.str "center")
  | "right" => some (PosC.str "right", PosC.str "center")
  | "top" => some (PosC.str "center", PosC.str "top")
  | "bottom" => some (PosC.str "center", PosC.str "bottom")
  | _ => none

/-- The `relative_pos` scaling step: when the flag is set, a non-string
component is multiplied by the corresponding background dimension. -/
def scaleIfNum (relative : Bool) (dim : ℚ) : PosC → PosC
  | PosC.str s => PosC.str s
  | PosC.num q => if relative then PosC.num (dim * q) else PosC.num q

/-- The horizontal anchor dictionary
`D = {"left": 0, "center": (wf - wi) / 2, "right": wf - wi}`. -/
def anchorX (wf wi : ℚ) : String → Option ℚ
  | "left" => some 0
  | "center" => some ((wf - wi) / 2)
  | "right" => some (wf - wi)
  | _ => none

/-- The vertical anchor dictionary
`D = {"top": 0, "center": (hf - hi) / 2, "bottom": hf - hi}`. -/
def anchorY (hf hi : ℚ) : String → Option ℚ
  | "top" => some 0
  | "center" => some ((hf - hi) / 2)
  | "bottom" => some (hf - hi)
  | _ => none

/-- Resolve one component: a string is looked up in the anchor dictionary,
a number is kept as is. -/
def resolveC (anchor : String → Option ℚ) : PosC → Option ℚ
  | PosC.str s => anchor s
  | PosC.num q => some q

/-- Python `int()` on a rational: truncation toward zero (the numerator
divided by the positive denominator with truncated division). -/
def pyInt (q : ℚ) : ℤ :=
  q.num.tdiv q.den

/-- The position-resolution part of `blit_on`: shortcut expansion, relative
scaling by the background dimensions `(wf, hf)`, per-axis anchor resolution
against the image dimensions `(wi, hi)`, and final `map(int, pos)`. -/
def blit_on_pos (pos0 : PosSpec) (relative : Bool) (wf hf wi hi : ℕ) :
    Option (ℤ × ℤ) :=
  let pos? : Option (PosC × PosC) :=
    match pos0 with
    | PosSpec.single s => posShortcuts s
    | PosSpec.pair x y => some (x, y)
  match pos? with
  | none => none
  | some (px, py) =>
      let px := scaleIfNum relative (wf : ℚ) px
      let py := scaleIfNum relative (hf : ℚ) py
      match resolveC (anchorX (wf : ℚ) (wi : ℚ)) px,
            resolveC (anchorY (hf : ℚ) (hi : ℚ)) py with
      | some qx, some qy => some (pyInt qx, pyInt qy)
      | _, _ => none

/-! ### `VideoClip.blit_on`, image/mask size reconciliation (lines 589-612)

PIL images are modelled from the spec's still-image boundary as a size plus
a total pixel function; `Image.new` fills a canvas with a constant and
`Image.paste` overwrites a rectangle. -/

/-- Modelled from the spec: a PIL image, as used by `Image.fromarray`,
`Image.new` and `Image.paste` in `blit_on` — a pixel raster with a
`(width, height)` size and a pixel lookup. -/
structure PImage (α : Type) where
  width : ℕ
  height : ℕ
  pixel : ℕ → ℕ → α

/-- Modelled from the spec: `Image.new(mode, (w, h), fill)` — a canvas of the
given size filled with a constant color. -/
def pilNew (α : Type) (w h : ℕ) (fill : α) : PImage α :=
  { width := w, height := h, pixel := fun _ _ => fill }

/-- Modelled from the spec: `bg.paste(im, (ox, oy))` — overwrite the rectangle
of `bg` starting at `(ox, oy)` with the pixels of `im`. -/
def pilPaste {α : Type} (bg : PImage α) (im : PImage α) (ox oy : ℕ) : PImage α :=
  { bg with
    pixel := fun x y =>
      if ox ≤ x ∧ x < ox + im.width ∧ oy ≤ y ∧ y < oy + im.height then
        im.pixel (x - ox) (y - oy)
      else bg.pixel x y }

/-- An RGB pixel (8-bit channels as naturals). -/
abbrev RGBPix := ℕ × ℕ × ℕ

/-- The black fill used for the reconciliation image canvas. -/
def blackRGB : RGBPix := (0, 0, 0)

/-- The size-reconciliation step of `blit_on`: when the frame and the mask
frame differ in size, both are pasted at the origin of new canvases of the
element-wise maximal size, the image canvas black and the mask canvas 0. -/
def reconcile (im_img : PImage RGBPix) (im_mask : PImage ℕ) :
    PImage RGBPix × PImage ℕ :=
  if (im_img.width, im_img.height) ≠ (im_mask.width, im_mask.height) then
    let bg_size := (max im_img.width im_mask.width, max im_img.height im_mask.height)
    let im_img_bg := pilPaste (pilNew RGBPix bg_size.1 bg_size.2 blackRGB) im_img 0 0
    let im_mask_bg := pilPaste (pilNew ℕ bg_size.1 bg_size.2 0) im_mask 0 0
    (im_img_bg, im_mask_bg)
  else (im_img, im_mask)

/-! ### `VideoClip.__copy__` and `with_opacity` (lines 136-158, 750-758)

Python objects live on a heap and attributes hold references, so the
shallow-copy semantics is modelled with an explicit store: a clip object is
a record whose `mask` and `audio` attributes are references (indices) into
the store and whose remaining attributes are summarised by a representative
payload `pix` (for a mask clip, its frame content, which `with_opacity`
multiplies). -/

/-- A reference into the object store (a Python object identity). -/
abbrev ClipRef := ℕ

/-- A clip object: `mask` and `audio` attribute references plus a
representative value `pix` standing for all remaining (value-like)
attributes, in particular the frame content of a mask clip. -/
structure ClipObj where
  mask : Option ClipRef
  audio : Option ClipRef
  pix : ℚ
deriving DecidableEq

/-- The object store: index = reference. -/
abbrev ClipHeap := List ClipObj

/-- Allocate a new object, returning its reference. -/
def allocObj (h : ClipHeap) (o : ClipObj) : ClipHeap × ClipRef :=
  (h ++ [o], h.length)

/-- Dereference. -/
def getObj (h : ClipHeap) (r : ClipRef) : Option ClipObj := h[r]?

/-- Overwrite the object at an existing reference (attribute assignment on
that object). -/
def setObj (h : ClipHeap) (r : ClipRef) (o : ClipObj) : ClipHeap := h.set r o

/-- `copy.copy(value)` for an attribute holding `None` or an object
reference: `None` stays `None`, a referenced object is field-copied into a
fresh object. -/
def copyAttr (h : ClipHeap) : Option ClipRef → ClipHeap × Option ClipRef
  | none => (h, none)
  | some r =>
      match getObj h r with
      | none => (h, none)
      | some o =>
          let hr := allocObj h o
          (hr.1, some hr.2)

/-- `VideoClip.__copy__`: a new clip object whose attributes are the same
values, except `mask` and `audio` which are first passed through
`copy.copy`. -/
def clipCopy (h : ClipHeap) (r : ClipRef) : ClipHeap × ClipRef :=
  match getObj h r with
  | none => (h, r)
  | some o =>
      let hm := copyAttr h o.mask
      let ha := copyAttr hm.1 o.audio
      allocObj ha.1 { o with mask := hm.2, audio := ha.2 }

/-- `ImageClip.image_transform` applied to a mask clip (the `@outplace`
path): copy the clip, then store the transformed frame content on the
copy. -/
def maskImageTransform (h : ClipHeap) (r : ClipRef) (f : ℚ → ℚ) :
    ClipHeap × ClipRef :=
  let hc := clipCopy h r
  match getObj hc.1 hc.2 with
  | none => hc
  | some o => (setObj hc.1 hc.2 { o with pix := f o.pix }, hc.2)

/-- `VideoClip.with_opacity(opacity)` for a clip that already has a mask
(the `@add_mask_if_none` decorator does nothing then): the `@outplace`
decorator copies the clip, and the body replaces the copy's `mask` attribute
by `mask.image_transform(lambda pic: opacity * pic)`. -/
def with_opacity (h : ClipHeap) (r : ClipRef) (opacity : ℚ) :
    ClipHeap × ClipRef :=
  let hc := clipCopy h r
  match getObj hc.1 hc.2 with
  | none => hc
  | some o =>
      match o.mask with
      | none => hc
      | some m =>
          let hm := maskImageTransform hc.1 m (fun pic => opacity * pic)
          (setObj hm.1 hc.2 { o with mask := some hm.2 }, hc.2)

/-! ### `to_mask` / `to_RGB` (lines 817-835)

A clip's frame function is `t ↦ (x, y, channel) ↦ value`; a true-color frame
holds naturals 0..255 (as rationals), a mask frame holds normalized rationals
(the channel index is ignored by a mask frame). -/

/-- `np.astype("uint8")` on a rational: truncate toward zero, wrap mod 256. -/
def uint8ofQ (q : ℚ) : ℕ :=
  (pyInt q).toNat % 256

/-- A clip as needed by the mask conversions: a frame function (time, x, y,
channel ↦ value) plus the `is_mask` flag. -/
structure MClip where
  frame : ℚ → ℕ → ℕ → ℕ → ℚ
  is_mask : Bool

/-- `VideoClip.to_mask(canal)`: a mask clip is returned unchanged; otherwise
the frame becomes `1.0 * pic[:, :, canal] / 255` (the same single value on
every channel index, since a mask frame is two-dimensional) and `is_mask`
is set. -/
def to_mask (canal : ℕ) (c : MClip) : MClip :=
  if c.is_mask then c
  else
    { frame := fun t x y _ => 1 * c.frame t x y canal / 255
      is_mask := true }

/-- `VideoClip.to_RGB()`: a non-mask clip is returned unchanged; otherwise
the frame becomes `np.dstack(3 * [255 * pic]).astype("uint8")` — the mask's
single channel (read at channel 0) replicated on every channel, scaled by
255 and cast to uint8 — and `is_mask` is cleared. -/
def to_RGB (c : MClip) : MClip :=
  if c.is_mask then
    { frame := fun t x y _ => (uint8ofQ (255 * c.frame t x y 0) : ℚ)
      is_mask := false }
  else c

/-! ### `BitmapClip.__init__` (lines 1436-1516) -/

/-- `BitmapClip.DEFAULT_COLOR_DICT` (a missing key is a Python `KeyError`,
modelled as `none`). -/
def DEFAULT_COLOR_DICT : Char → Option RGBPix
  | 'R' => some (255, 0, 0)
  | 'G' => some (0, 255, 0)
  | 'B' => some (0, 0, 255)
  | 'O' => some (0, 0, 0)
  | 'W' => some (255, 255, 255)
  | 'A' => some (89, 225, 62)
  | 'C' => some (113, 157, 108)
  | 'D' => some (215, 182, 143)
  | 'E' => some (57, 26, 252)
  | 'F' => some (225, 135, 33)
  | _ => none

/-- A decoded bitmap frame: rows of RGB triples
(`[[color_dict[color] for color in row] for row in input_frame]`). -/
def decodeFrame (color_dict : Char → Option RGBPix) (input_frame : List String) :
    List (List (Option RGBPix)) :=
  input_frame.map (fun row => row.toList.map color_dict)

/-- The state of a constructed `BitmapClip`: the decoded frame list, `fps`
and `duration`. -/
structure BitmapClipS where
  frames : List (List (List (Option RGBPix)))
  fps : ℚ
  duration : ℚ
deriving DecidableEq

/-- `BitmapClip.__init__(bitmap_frames, fps=..., duration=...)`: asserts that
at least one of `fps` and `duration` is given (`none` models the failed
assertion); when `fps is None` it is computed as `total_frames / duration`,
otherwise `duration = total_frames / fps` (an additionally supplied
`duration` is overwritten, i.e. ignored). -/
def bitmapClipMk (color_dict : Char → Option RGBPix)
    (bitmap_frames : List (List String)) (fps : Option ℚ) (duration : Option ℚ) :
    Option BitmapClipS :=
  let frame_list := bitmap_frames.map (decodeFrame color_dict)
  match fps, duration with
  | none, none => none
  | some f, _ => some { frames := frame_list, fps := f, duration := (frame_list.length : ℚ) / f }
  | none, some d => some { frames := frame_list, fps := (frame_list.length : ℚ) / d, duration := d }

/-- The clip's `make_frame = lambda t: frame_array[int(t * fps)]` (Python's
`int()` truncates toward zero; an out-of-range index raises, modelled as
`none`). -/
def bitmapGetFrame (c : BitmapClipS) (t : ℚ) : Option (List (List (Option RGBPix))) :=
  c.frames[(pyInt (t * c.fps)).toNat]?

/-! ### `TextClip.__init__` validation (lines 1324-1375) and
`ColorClip.__init__` validation (lines 1123-1145) -/

/-- The configuration errors `TextClip.__init__` can raise. -/
inductive TCError where
  | invalidFont
  | noText
  | captionNoSize
  | captionNoHeight
  | labelNoFontSize
  | badMethod
deriving DecidableEq

/-- `TextClip.__init__`, up to the computation of the resolved font size and
image size (the rasterization that follows is external rendering).
`fontValid` is the outcome of the external `ImageFont.truetype(font)` probe;
`fileText` models reading a supplied `filename` (always yielding a string);
`measure2` is the external text measurement as in `find_text_size`.
The validation checks appear exactly in source order, interleaved with the
layout computations of the `caption` and `label` branches; on success the
result is the resolved `(font_size, img_width, img_height, text)`. -/
def textClipInit (measure2 : ℕ → String → ℕ × ℕ) (fontValid : Bool)
    (textArg : Option String) (filenameArg : Option String)
    (fileText : String → String) (font_size : Option ℕ)
    (size : Option ℕ × Option ℕ) (method : String) :
    Except TCError (ℕ × ℕ × ℕ × String) :=
  if !fontValid then Except.error TCError.invalidFont
  else
    let text : Option String :=
      match filenameArg with
      | some fn => if fn ≠ "" then some (fileText fn) else textArg
      | none => textArg
    match text with
    | none => Except.error TCError.noText
    | some text =>
        let img_width := size.1
        let img_height := size.2
        if method = "caption" then
          match img_width with
          | none => Except.error TCError.captionNoSize
          | some w =>
              if img_height = none ∧ font_size = none then
                Except.error TCError.captionNoHeight
              else
                let fs :=
                  match font_size with
                  | some fs => fs
                  | none =>
                      find_optimum_font_size
                        (fos_fits measure2 text w img_height true) w
                let h :=
                  match img_height with
                  | some h => h
                  | none => (find_text_size measure2 text fs (some w) true).2
                let text2 := String.intercalate "\n"
                  (break_text (fun s => (measure2 fs s).1) w text)
                Except.ok (fs, w, h, text2)
        else if method = "label" then
          if font_size = none ∧ img_width = none then
            Except.error TCError.labelNoFontSize
          else
            let fs :=
              match font_size with
              | some fs => fs
              | none =>
                  find_optimum_font_size
                    (fos_fits measure2 text (img_width.getD 0) img_height false)
                    (img_width.getD 0)
            let w :=
              match img_width with
              | some w => w
              | none => (find_text_size measure2 text fs none false).1
            let h :=
              match img_height with
              | some h => h
              | none => (find_text_size measure2 text fs (some w) false).2
            Except.ok (fs, w, h, text)
        else Except.error TCError.badMethod

/-- The error component of a `textClipInit` outcome. -/
def errOf {ε α : Type} : Except ε α → Option ε
  | Except.error e => some e
  | Except.ok _ => none

/-- A Python value passed as the `color` argument of `ColorClip`: a numeric
scalar, a sequence of channel values, or a string. -/
inductive PyColor where
  | scalar (q : ℚ)
  | rgb (l : List ℕ)
  | str (s : String)
deriving DecidableEq

/-- `np.isscalar`: true for numbers and for strings, false for sequences. -/
def npIsScalar : PyColor → Bool
  | PyColor.scalar _ => true
  | PyColor.str _ => true
  | PyColor.rgb _ => false

/-- Python `hasattr(color, "__getitem__")`: sequences and strings are
indexable, numeric scalars are not. -/
def hasGetitem : PyColor → Bool
  | PyColor.scalar _ => false
  | PyColor.str _ => true
  | PyColor.rgb _ => true

/-- The configuration errors `ColorClip.__init__` can raise. -/
inductive CCError where
  | maskColorNotScalar
  | colorNotRGB
  | colorIsString
deriving DecidableEq

/-- The validation prefix of `ColorClip.__init__`: with `is_mask` the color
defaults to `0` and must satisfy `np.isscalar`; otherwise it defaults to
`(0, 0, 0)`, must be indexable (`hasattr(color, "__getitem__")`), and must
not be a string. -/
def colorClipValidate (is_mask : Bool) (color : Option PyColor) : Option CCError :=
  if is_mask then
    match color with
    | none => none
    | some c => if !npIsScalar c then some CCError.maskColorNotScalar else none
  else
    match color with
    | none => none
    | some c =>
        if !hasGetitem c then some CCError.colorNotRGB
        else if (match c with | PyColor.str _ => true | _ => false) then
          some CCError.colorIsString
        else none

/-- The claim's enumeration of invalid `ColorClip` arguments: a non-scalar
color when `is_mask` is true, or a string-typed color when `is_mask` is
false. -/
def claimedColorInvalid (is_mask : Bool) (color : Option PyColor) : Bool :=
  (is_mask && (match color with | some c => !npIsScalar c | none => false)) ||
  (!is_mask && (match color with | some (PyColor.str _) => true | _ => false))

/-! ### `ImageClip.image_transform` vs `VideoClip.image_transform`
(lines 1064-1083 and 552-557) -/

/-- A general video clip as far as frames are concerned: its `make_frame`
function. -/
structure VClip (Frame : Type) where
  make_frame : ℚ → Frame

/-- A static image clip: it holds the precomputed array `img`, and its frame
function ignores the time. -/
structure IClip (Frame : Type) where
  img : Frame

/-- `ImageClip.get_frame(t)` (the frame function installed by
`ImageClip.__init__` is `lambda t: img`). -/
def iclipGetFrame {Frame : Type} (c : IClip Frame) (t : ℚ) : Frame := c.img

/-- The view of a static image clip as a general clip. -/
def iclipToVClip {Frame : Type} (c : IClip Frame) : VClip Frame :=
  { make_frame := fun t => iclipGetFrame c t }

/-- `ImageClip.image_transform(image_func)` (with empty `apply_to`): the
transform is evaluated once, eagerly, on `get_frame(0)`, and the result is
stored as the new static image. -/
def iclip_image_transform {Frame : Type} (image_func : Frame → Frame)
    (c : IClip Frame) : IClip Frame :=
  { img := image_func (iclipGetFrame c 0) }

/-- `VideoClip.image_transform(image_func)` (with empty `apply_to`): the
general lazy form, wrapping `image_func` around the frame function via
`transform(lambda get_frame, t: image_func(get_frame(t)))`. -/
def vclip_image_transform {Frame : Type} (image_func : Frame → Frame)
    (c : VClip Frame) : VClip Frame :=
  { make_frame := fun t => image_func (c.make_frame t) }

/-! ### Concrete instances used in examples -/

/-- The 2-frame 5×3 bitmap of the `BitmapClip` scenario. -/
def bitmapExample : List (List String) :=
  [["RRRRR", "RRBRR", "RRBRR"], ["RGGGR", "RGGGR", "RGGGR"]]

/-- A measurement (an admissible behavior of the external font boundary,
which guarantees no monotonicity in the font size) under which the text
"x" measures 10 pixels wide at font size 2 but 1 pixel wide at every other
size. -/
def measure0 : ℕ → String → ℕ × ℕ :=
  fun s _ => (if s = 2 then 10 else 1, 1)

/-- A monotone measurement: the text is as many pixels wide as the font
size. -/
def measureM : ℕ → String → ℕ × ℕ :=
  fun s _ => (s, 1)

/-! ## Lemmas about `pyInt` -/

/-- `pyInt` is truncation toward zero: floor on nonnegative rationals, ceiling
on negative ones. -/
theorem pyInt_eq (q : ℚ) : pyInt q = if 0 ≤ q then ⌊q⌋ else ⌈q⌉ := by
  unfold pyInt
  split
  · next h =>
      rw [Rat.floor_def]
      exact Int.tdiv_eq_ediv (Rat.num_nonneg.2 h) (Int.natCast_nonneg _)
  · next h =>
      have hneg : q.num < 0 := by
        by_contra hc
        exact h (Rat.num_nonneg.1 (le_of_not_lt hc))
      have h1 : ⌈q⌉ = -⌊-q⌋ := by rw [Int.floor_neg, neg_neg]
      rw [h1, Rat.floor_def]
      have h2 : (-q).num = -q.num := by simp
      have h3 : (-q).den = q.den := by simp
      rw [h2, h3]
      rw [show q.num.tdiv q.den = -((-q.num).tdiv q.den) by rw [Int.neg_tdiv, neg_neg]]
      rw [Int.tdiv_eq_ediv (by omega) (Int.natCast_nonneg _)]

/-- `int()` of an integer value is that integer. -/
theorem pyInt_intCast (n : ℤ) : pyInt (n : ℚ) = n := by
  rw [pyInt_eq]; split <;> simp

/-- `int()` of a natural value is that natural. -/
theorem pyInt_natCast (n : ℕ) : pyInt (n : ℚ) = n := by
  rw [show ((n : ℚ)) = ((n : ℤ) : ℚ) by push_cast; ring, pyInt_intCast]

/-- Truncating `n / 2` leaves a value within one unit of the exact half:
`|n - 2 * int(n / 2)| ≤ 1`. -/
theorem pyInt_half_close (n : ℤ) : |n - 2 * pyInt ((n : ℚ) / 2)| ≤ 1 := by
  rw [pyInt_eq]
  rcases Int.even_or_odd n with ⟨k, hk⟩ | ⟨k, hk⟩
  · subst hk
    rw [show ((k + k : ℤ) : ℚ) / 2 = ((k : ℤ) : ℚ) by push_cast; ring]
    split
    · rw [Int.floor_intCast, abs_le]; constructor <;> omega
    · rw [Int.ceil_intCast, abs_le]; constructor <;> omega
  · subst hk
    rw [show ((2 * k + 1 : ℤ) : ℚ) / 2 = (1 / 2 : ℚ) + (k : ℤ) by push_cast; ring]
    have hc : ⌈(1 / 2 : ℚ)⌉ = 1 := by
      rw [Int.ceil_eq_iff]
      norm_num
    have hf : ⌊(1 / 2 : ℚ)⌋ = 0 := by
      rw [Int.floor_eq_iff]
      norm_num
    split
    · rw [Int.floor_add_int, hf, abs_le]; constructor <;> omega
    · rw [Int.ceil_add_int, hc, abs_le]; constructor <;> omega

/-! ## Lemmas about the bisection loop -/

/-- Once the bounds have crossed, the loop returns the lower bound whatever
the fuel. -/
theorem fosLoopF_exit (fits : ℕ → Bool) (fuel lo hi : ℕ) (h : ¬ lo < hi) :
    fosLoopF fits fuel lo hi = lo := by
  cases fuel with
  | zero => rfl
  | succ f => simp [fosLoopF, h]

/-- The probe `(hi + lo) // 2` is at least the lower bound. -/
theorem fos_avg_ge (lo hi : ℕ) (h : lo < hi) : lo ≤ (hi + lo) / 2 :=
  (Nat.le_div_iff_mul_le (by norm_num)).mpr (by omega)

/-- The probe `(hi + lo) // 2` is below the upper bound. -/
theorem fos_avg_lt (lo hi : ℕ) (h : lo < hi) : (hi + lo) / 2 < hi :=
  (Nat.div_lt_iff_lt_mul (by norm_num)).mpr (by omega)

/-- The loop result does not depend on the fuel, provided there is enough
of it. -/
theorem fosLoopF_fuel (fits : ℕ → Bool) :
    ∀ fuel fuel' lo hi : ℕ, hi + 1 - lo ≤ fuel → hi + 1 - lo ≤ fuel' →
      fosLoopF fits fuel lo hi = fosLoopF fits fuel' lo hi := by
  intro fuel
  induction fuel with
  | zero =>
      intro fuel' lo hi h h'
      have hexit : ¬ lo < hi := by omega
      rw [fosLoopF_exit fits 0 lo hi hexit, fosLoopF_exit fits fuel' lo hi hexit]
  | succ f ih =>
      intro fuel' lo hi h h'
      by_cases hlt : lo < hi
      · have hge := fos_avg_ge lo hi hlt
        have hlt2 := fos_avg_lt lo hi hlt
        cases fuel' with
        | zero => omega
        | succ f' =>
            simp only [fosLoopF, if_pos hlt]
            by_cases hfit : fits ((hi + lo) / 2) = true
            · rw [if_pos hfit, if_pos hfit]
              exact ih f' _ _ (by omega) (by omega)
            · rw [if_neg hfit, if_neg hfit]
              exact ih f' _ _ (by omega) (by omega)
      · rw [fosLoopF_exit fits _ lo hi hlt, fosLoopF_exit fits _ lo hi hlt]

/-- Invariant of the bisection loop (for a downward-closed fit test):
starting from a state whose lower bound is 1 or has a fitting predecessor,
with no fitting size above the upper bound within `[1, W]`, the result is in
`[1, W]`, keeps the fitting-predecessor property, and no size above it fits
within `[1, W]`. -/
theorem fosLoopF_invariant (fits : ℕ → Bool) (W : ℕ)
    (hmono : ∀ a b : ℕ, a ≤ b → fits b = true → fits a = true) :
    ∀ fuel lo hi : ℕ, hi + 1 - lo ≤ fuel →
      1 ≤ lo → lo ≤ W → hi ≤ W →
      (lo = 1 ∨ fits (lo - 1) = true) →
      (∀ s, hi < s → s ≤ W → fits s = false) →
      (1 ≤ fosLoopF fits fuel lo hi
        ∧ fosLoopF fits fuel lo hi ≤ W
        ∧ (fosLoopF fits fuel lo hi = 1 ∨ fits (fosLoopF fits fuel lo hi - 1) = true)
        ∧ (∀ s, fosLoopF fits fuel lo hi < s → s ≤ W → fits s = false)) := by
  intro fuel
  induction fuel with
  | zero =>
      intro lo hi hfuel h1 hloW hhiW hlow hhigh
      have hexit : ¬ lo < hi := by omega
      rw [fosLoopF_exit fits 0 lo hi hexit]
      exact ⟨h1, hloW, hlow, fun s hs hsW => hhigh s (by omega) hsW⟩
  | succ f ih =>
      intro lo hi hfuel h1 hloW hhiW hlow hhigh
      by_cases hlt : lo < hi
      · have hge := fos_avg_ge lo hi hlt
        have hlt2 := fos_avg_lt lo hi hlt
        simp only [fosLoopF, if_pos hlt]
        by_cases hfit : fits ((hi + lo) / 2) = true
        · rw [if_pos hfit]
          exact ih ((hi + lo) / 2 + 1) hi (by omega) (by omega) (by omega) hhiW
            (Or.inr (by simpa using hfit)) hhigh
        · rw [if_neg hfit]
          refine ih lo ((hi + lo) / 2 - 1) (by omega) h1 hloW (by omega) hlow ?_
          intro s hs hsW
          by_cases hshi : hi < s
          · exact hhigh s hshi hsW
          · cases hfs : fits s with
            | false => rfl
            | true =>
                have hcontra : fits ((hi + lo) / 2) = true :=
                  hmono _ s (by omega) hfs
                exact absurd hcontra hfit
      · rw [fosLoopF_exit fits _ lo hi hlt]
        exact ⟨h1, hloW, hlow, fun s hs hsW => hhigh s (by omega) hsW⟩

/-! ## Lemmas about `break_text` -/

/-- Lines already accumulated by the `break_text` loop form a prefix of its
output. -/
theorem break_textAux_accum (measure : String → ℕ) (width : ℕ) :
    ∀ (words l1 l2 : List String) (current : String),
      break_textAux measure width words (l1 ++ l2) current
        = l1 ++ break_textAux measure width words l2 current := by
  intro words
  induction words with
  | nil =>
      intro l1 l2 current
      by_cases h : current = "" <;> simp [break_textAux, h]
  | cons w ws ih =>
      intro l1 l2 current
      simp only [break_textAux]
      split
      · split
        · exact ih l1 l2 _
        · rw [List.append_assoc]
          exact ih l1 (l2 ++ [current]) w
      · split
        · exact ih l1 l2 _
        · rw [List.append_assoc]
          exact ih l1 (l2 ++ [current]) w

/-- Any accumulated line is a member of the `break_text` loop's output. -/
theorem break_textAux_mem_lines (measure : String → ℕ) (width : ℕ)
    (words lines : List String) (current l : String) (hl : l ∈ lines) :
    l ∈ break_textAux measure width words lines current := by
  have h := break_textAux_accum measure width words lines [] current
  rw [List.append_nil] at h
  rw [h]
  exact List.mem_append_left _ hl

/-- Invariant of the `break_text` loop: when every remaining word fits and
every accumulated line fits and the current line is empty or fits, every
output line fits. -/
theorem break_textAux_fits (measure : String → ℕ) (width : ℕ) :
    ∀ (words lines : List String) (current : String),
      (∀ w ∈ words, measure w ≤ width) →
      (∀ l ∈ lines, measure l ≤ width) →
      (current = "" ∨ measure current ≤ width) →
      ∀ l ∈ break_textAux measure width words lines current, measure l ≤ width := by
  intro words
  induction words with
  | nil =>
      intro lines current _ hlines hcur l hl
      by_cases h : current = ""
      · simp only [break_textAux, h, ne_eq, not_true_eq_false, if_false] at hl
        exact hlines l hl
      · simp only [break_textAux, ne_eq, h, not_false_eq_true, if_true,
          List.mem_append, List.mem_singleton] at hl
        rcases hl with hl | hl
        · exact hlines l hl
        · subst hl
          rcases hcur with h0 | h0
          · exact absurd h0 h
          · exact h0
  | cons w ws ih =>
      intro lines current hws hlines hcur l hl
      have hw : measure w ≤ width := hws w (List.mem_cons_self w ws)
      have hws' : ∀ x ∈ ws, measure x ≤ width :=
        fun x hx => hws x (List.mem_cons_of_mem w hx)
      by_cases hc : current = ""
      · have htemp : (if current ≠ "" then current ++ " " ++ w else w) = w := by
          simp [hc]
        simp only [break_textAux, htemp, hw, if_true] at hl
        exact ih lines w hws' hlines (Or.inr hw) l hl
      · have hcw : measure current ≤ width := hcur.resolve_left hc
        simp only [break_textAux, ne_eq, hc, not_false_eq_true, if_true] at hl
        by_cases hfit : measure (current ++ " " ++ w) ≤ width
        · rw [if_pos hfit] at hl
          exact ih lines (current ++ " " ++ w) hws' hlines (Or.inr hfit) l hl
        · rw [if_neg hfit] at hl
          refine ih (lines ++ [current]) w hws' ?_ (Or.inr hw) l hl
          intro x hx
          rcases List.mem_append.1 hx with hx | hx
          · exact hlines x hx
          · rw [List.mem_singleton.1 hx]
            exact hcw

/-- When the current line is a word too wide to fit, it is emitted as a line
of its own (assuming the measured width of a line is at least the measured
width of its first word). -/
theorem break_textAux_current_overflow (measure : String → ℕ) (width : ℕ)
    (hml : ∀ a b : String, measure a ≤ measure (a ++ " " ++ b)) :
    ∀ (words lines : List String) (w : String),
      width < measure w → w ≠ "" →
      w ∈ break_textAux measure width words lines w := by
  intro words
  induction words with
  | nil =>
      intro lines w hbig hne
      simp only [break_textAux, ne_eq, hne, not_false_eq_true, if_true]
      exact List.mem_append_right _ (List.mem_singleton_self w)
  | cons v vs ih =>
      intro lines w hbig hne
      have hnofit : ¬ measure (w ++ " " ++ v) ≤ width :=
        fun h => absurd (le_trans (hml w v) h) (not_le.2 hbig)
      simp only [break_textAux]
      rw [if_pos hne, if_neg hnofit]
      exact break_textAux_mem_lines measure width vs (lines ++ [w]) v w
        (List.mem_append_right _ (List.mem_singleton_self w))

/-- Any remaining word too wide to fit ends up as a line of its own
(assuming the measured width of a line is at least that of its first and of
its last word). -/
theorem break_textAux_word_overflow (measure : String → ℕ) (width : ℕ)
    (hml : ∀ a b : String, measure a ≤ measure (a ++ " " ++ b))
    (hmr : ∀ a b : String, measure b ≤ measure (a ++ " " ++ b)) :
    ∀ (words lines : List String) (current w : String),
      w ∈ words → width < measure w → w ≠ "" →
      w ∈ break_textAux measure width words lines current := by
  intro words
  induction words with
  | nil => intro lines current w hmem; exact absurd hmem (List.not_mem_nil w)
  | cons v vs ih =>
      intro lines current w hmem hbig hne
      rcases List.mem_cons.1 hmem with hv | hv
      · subst hv
        by_cases hc : current = ""
        · subst hc
          have hnofit : ¬ measure w ≤ width := not_le.2 hbig
          simp only [break_textAux]
          rw [if_neg (show ¬(("" : String) ≠ "") from fun h => h rfl), if_neg hnofit]
          exact break_textAux_current_overflow measure width hml vs
            (lines ++ [""]) w hbig hne
        · have hnofit : ¬ measure (current ++ " " ++ w) ≤ width :=
            fun h => absurd (le_trans (hmr current w) h) (not_le.2 hbig)
          simp only [break_textAux]
          rw [if_pos hc, if_neg hnofit]
          exact break_textAux_current_overflow measure width hml vs
            (lines ++ [current]) w hbig hne
      · simp only [break_textAux]
        split
        · split
          · exact ih lines _ w hv hbig hne
          · exact ih (lines ++ [current]) _ w hv hbig hne
        · split
          · exact ih lines _ w hv hbig hne
          · exact ih (lines ++ [current]) _ w hv hbig hne

/-! ## C1 -/

/-- C1 (amended): the bisection moves the lower bound past the probe on fit
and the upper bound past the probe on non-fit, and after the bounds cross it
re-validates the final candidate, decrementing it by one if it does not fit;
and — provided the fit test is downward closed in the font size, as the
source assumes — when some size fits, `find_optimum_font_size` returns the
largest fitting integer size in `[1, width]`, and the next size up does not
fit whenever it lies within the search range; when no size fits it
returns 0. -/
theorem find_optimum_font_size_spec (fits : ℕ → Bool) (width : ℕ)
    (hW : 1 ≤ width)
    (hmono : ∀ a b : ℕ, a ≤ b → fits b = true → fits a = true) :
    (∀ lo hi, lo < hi →
        fosLoop fits lo hi
          = if fits ((hi + lo) / 2) = true then fosLoop fits ((hi + lo) / 2 + 1) hi
            else fosLoop fits lo ((hi + lo) / 2 - 1))
    ∧ (find_optimum_font_size fits width
        = if fits (fosLoop fits 1 width) = true then fosLoop fits 1 width
          else fosLoop fits 1 width - 1)
    ∧ (fits 1 = false → find_optimum_font_size fits width = 0)
    ∧ (fits 1 = true →
        1 ≤ find_optimum_font_size fits width
        ∧ find_optimum_font_size fits width ≤ width
        ∧ fits (find_optimum_font_size fits width) = true
        ∧ (∀ s, s ≤ width → fits s = true → s ≤ find_optimum_font_size fits width)
        ∧ (find_optimum_font_size fits width < width →
            fits (find_optimum_font_size fits width + 1) = false)) := by
  have hinv := fosLoopF_invariant fits width hmono (width + 1 - 1) 1 width
    (le_refl _) (le_refl _) hW (le_refl _) (Or.inl rfl)
    (fun s hs hsW => absurd hs (by omega))
  rw [show width + 1 - 1 = width from by omega] at hinv
  have hloop : fosLoop fits 1 width = fosLoopF fits width 1 width := by
    unfold fosLoop
    rw [show width + 1 - 1 = width from by omega]
  obtain ⟨hm1, hmW, hthird, hfourth⟩ := hinv
  refine ⟨?_, rfl, ?_, ?_⟩
  · intro lo hi hlt
    have hge := fos_avg_ge lo hi hlt
    have hlt2 := fos_avg_lt lo hi hlt
    unfold fosLoop
    rw [show hi + 1 - lo = (hi - lo) + 1 from by omega]
    simp only [fosLoopF, if_pos hlt]
    by_cases hfit : fits ((hi + lo) / 2) = true
    · rw [if_pos hfit, if_pos hfit]
      exact fosLoopF_fuel fits (hi - lo) _ _ hi (by omega) (by omega)
    · rw [if_neg hfit, if_neg hfit]
      exact fosLoopF_fuel fits (hi - lo) _ lo _ (by omega) (by omega)
  · intro h1f
    have hm : fosLoopF fits width 1 width = 1 := by
      rcases hthird with hm | hfitm
      · exact hm
      · by_contra hne
        have hge1 : 1 ≤ fosLoopF fits width 1 width - 1 := by omega
        have hone : fits 1 = true := hmono 1 _ hge1 hfitm
        rw [h1f] at hone
        exact Bool.false_ne_true hone
    show (if fits (fosLoop fits 1 width) = true then fosLoop fits 1 width
        else fosLoop fits 1 width - 1) = 0
    rw [hloop, hm, h1f]
    simp
  · intro h1t
    have hgoal : ∀ P : ℕ → Prop,
        P (if fits (fosLoopF fits width 1 width) = true then fosLoopF fits width 1 width
            else fosLoopF fits width 1 width - 1) →
        P (find_optimum_font_size fits width) := by
      intro P hP
      show P (if fits (fosLoop fits 1 width) = true then fosLoop fits 1 width
          else fosLoop fits 1 width - 1)
      rw [hloop]
      exact hP
    refine hgoal (fun v => 1 ≤ v ∧ v ≤ width ∧ fits v = true
      ∧ (∀ s, s ≤ width → fits s = true → s ≤ v)
      ∧ (v < width → fits (v + 1) = false)) ?_
    by_cases hf : fits (fosLoopF fits width 1 width) = true
    · rw [if_pos hf]
      refine ⟨hm1, hmW, hf, ?_, ?_⟩
      · intro s hsW hfs
        by_contra hgt
        have := hfourth s (by omega) hsW
        rw [hfs] at this
        exact absurd this (by simp)
      · intro hlt
        exact hfourth _ (by omega) (by omega)
    · rw [if_neg hf]
      have hm2 : fosLoopF fits width 1 width ≠ 1 := by
        intro heq
        rw [heq] at hf
        exact hf h1t
      have hfitm : fits (fosLoopF fits width 1 width - 1) = true :=
        hthird.resolve_left hm2
      have hge2 : 2 ≤ fosLoopF fits width 1 width := by omega
      refine ⟨by omega, by omega, hfitm, ?_, ?_⟩
      · intro s hsW hfs
        by_contra hgt
        have hsm : fosLoopF fits width 1 width ≤ s := by omega
        have : fits (fosLoopF fits width 1 width) = true := hmono _ s hsm hfs
        exact hf this
      · intro hlt
        rw [show fosLoopF fits width 1 width - 1 + 1
            = fosLoopF fits width 1 width from by omega]
        cases hx : fits (fosLoopF fits width 1 width) with
        | false => rfl
        | true => exact absurd hx hf

/-- Counterexample for C1 as frozen: with the external measurement
`measure0` — text 10 pixels wide at font size 2, 1 pixel wide otherwise,
an admissible non-monotone behavior of the font boundary that the source
does not exclude — the bisection over `[1, 3]` returns 1 although size 3
fits, so the returned size is not the largest fitting one. -/
theorem find_optimum_font_size_cx :
    find_optimum_font_size (fos_fits measure0 "x" 3 none false) 3 = 1
    ∧ fos_fits measure0 "x" 3 none false 3 = true
    ∧ ¬ (∀ s, s ≤ 3 → fos_fits measure0 "x" 3 none false s = true
          → s ≤ find_optimum_font_size (fos_fits measure0 "x" 3 none false) 3) := by
  refine ⟨by decide, by decide, ?_⟩
  intro hall
  have := hall 3 (by omega) (by decide)
  rw [show find_optimum_font_size (fos_fits measure0 "x" 3 none false) 3 = 1
    from by decide] at this
  omega

/-- Witness for C1 at the monotone measurement `measureM` (text as wide as
the font size): over `[1, 10]` the optimum is a fitting size of at least
1. -/
theorem find_optimum_font_size_spec_witness :
    (1 : ℕ) ≤ 10
    ∧ fos_fits measureM "x" 10 none false 1 = true
    ∧ 1 ≤ find_optimum_font_size (fos_fits measureM "x" 10 none false) 10
    ∧ find_optimum_font_size (fos_fits measureM "x" 10 none false) 10 ≤ 10
    ∧ fos_fits measureM "x" 10 none false
        (find_optimum_font_size (fos_fits measureM "x" 10 none false) 10) = true := by
  have hmono : ∀ a b : ℕ, a ≤ b →
      fos_fits measureM "x" 10 none false b = true →
      fos_fits measureM "x" 10 none false a = true := by
    intro a b hab hb
    simp only [fos_fits, find_text_size, measureM, decide_eq_true_eq] at hb ⊢
    exact ⟨le_trans hab hb.1, by simp⟩
  have h := find_optimum_font_size_spec (fos_fits measureM "x" 10 none false) 10
    (by decide) hmono
  have h4 := h.2.2.2 (by decide)
  exact ⟨by decide, by decide, h4.1, h4.2.1, h4.2.2.1⟩

/-! ## C2 -/

/-- C2: for every input text whose individual words each measure at most
`width` in isolation, `break_text` produces only lines whose measured width
is at most `width`; and (for a measurement that is monotone under prepending
and appending words, with the empty string fitting) any word measuring
strictly more than `width` is never split: it appears, whole, as a line of
its own in the output. -/
theorem break_text_spec (measure : String → ℕ) (width : ℕ) (text : String) :
    ((∀ w ∈ pySplitSpace text, measure w ≤ width) →
        ∀ l ∈ break_text measure width text, measure l ≤ width)
    ∧ ((∀ a b : String, measure a ≤ measure (a ++ " " ++ b)) →
        (∀ a b : String, measure b ≤ measure (a ++ " " ++ b)) →
        measure "" ≤ width →
        ∀ w ∈ pySplitSpace text, width < measure w →
          w ∈ break_text measure width text) := by
  constructor
  · intro hwords l hl
    exact break_textAux_fits measure width (pySplitSpace text) [] ""
      hwords (by intro x hx; exact absurd hx (List.not_mem_nil x)) (Or.inl rfl) l hl
  · intro hml hmr hempty w hmem hbig
    have hne : w ≠ "" := by
      intro h
      rw [h] at hbig
      exact absurd hempty (not_le.2 hbig)
    exact break_textAux_word_overflow measure width hml hmr
      (pySplitSpace text) [] "" w hmem hbig hne

/-- Witness for C2 at a concrete measurement (string length), text and
width. -/
theorem break_text_spec_witness :
    (∀ l ∈ break_text String.length 3 "ab cd", String.length l ≤ 3) ∧
    "toolong" ∈ break_text String.length 3 "ab toolong" := by
  constructor
  · exact (break_text_spec String.length 3 "ab cd").1 (by decide)
  · exact (break_text_spec String.length 3 "ab toolong").2
      (fun a b => by simp only [String.length_append]; omega)
      (fun a b => by simp only [String.length_append]; omega)
      (by decide) "toolong" (by decide) (by decide)

/-! ## C10 -/

/-- C10: when the first word of the text measures strictly wider than
`width`, the empty initial current line is flushed before that word starts
its own line, so the first element of the returned line list is the empty
string. -/
theorem break_text_first_line_empty (measure : String → ℕ) (width : ℕ)
    (text w : String) (ws : List String)
    (hsplit : pySplitSpace text = w :: ws)
    (hbig : width < measure w) :
    (break_text measure width text).head? = some "" := by
  unfold break_text
  rw [hsplit]
  have hnofit : ¬ measure w ≤ width := not_le.2 hbig
  simp only [break_textAux]
  rw [if_neg (show ¬(("" : String) ≠ "") from fun h => h rfl), if_neg hnofit, List.nil_append]
  have h := break_textAux_accum measure width ws [""] [] w
  rw [List.append_nil] at h
  rw [h]
  rfl

/-- Witness for C10: text `"toolong x"` with measurement string length and
width 3. -/
theorem break_text_first_line_empty_witness :
    (break_text String.length 3 "toolong x").head? = some "" :=
  break_text_first_line_empty String.length 3 "toolong x" "toolong" ["x"]
    (by decide) (by decide)

/-! ## C3 -/

/-- C3: in `blit_on`, named position anchors resolve independently per axis
as `left→0`, `right→wf−wi`, `center→(wf−wi)/2` (and `top`/`bottom`/`center`
vertically), with final coordinates truncated to integers; in particular
`("right", "bottom")` yields exactly `(wf−wi, hf−hi)` — placing the
foreground's bottom-right corner at `(wf, hf)` — and `("center", "center")`
centers within one pixel of rounding; a numeric component is scaled by the
background dimension exactly when `relative_pos` is set. -/
theorem blit_on_pos_anchors (relative : Bool) (wf hf wi hi : ℕ) (x y : ℚ) :
    (blit_on_pos (PosSpec.pair (PosC.str "left") (PosC.str "top")) relative wf hf wi hi
      = some (0, 0))
    ∧ (blit_on_pos (PosSpec.pair (PosC.str "right") (PosC.str "bottom")) relative wf hf wi hi
      = some ((wf : ℤ) - (wi : ℤ), (hf : ℤ) - (hi : ℤ)))
    ∧ (∃ cx cy,
        blit_on_pos (PosSpec.pair (PosC.str "center") (PosC.str "center")) relative wf hf wi hi
          = some (cx, cy)
        ∧ cx = pyInt (((wf : ℚ) - (wi : ℚ)) / 2)
        ∧ cy = pyInt (((hf : ℚ) - (hi : ℚ)) / 2)
        ∧ |((wf : ℤ) - (wi : ℤ)) - 2 * cx| ≤ 1
        ∧ |((hf : ℤ) - (hi : ℤ)) - 2 * cy| ≤ 1)
    ∧ (blit_on_pos (PosSpec.pair (PosC.num x) (PosC.num y)) relative wf hf wi hi
      = some (pyInt (if relative then (wf : ℚ) * x else x),
              pyInt (if relative then (hf : ℚ) * y else y))) := by
  refine ⟨rfl, ?_, ?_, ?_⟩
  · show some (pyInt ((wf : ℚ) - (wi : ℚ)), pyInt ((hf : ℚ) - (hi : ℚ))) = _
    rw [show (wf : ℚ) - (wi : ℚ) = (((wf : ℤ) - (wi : ℤ) : ℤ) : ℚ) by push_cast; ring]
    rw [show (hf : ℚ) - (hi : ℚ) = (((hf : ℤ) - (hi : ℤ) : ℤ) : ℚ) by push_cast; ring]
    rw [pyInt_intCast, pyInt_intCast]
  · refine ⟨pyInt (((wf : ℚ) - (wi : ℚ)) / 2), pyInt (((hf : ℚ) - (hi : ℚ)) / 2),
      rfl, rfl, rfl, ?_, ?_⟩
    · rw [show (wf : ℚ) - (wi : ℚ) = (((wf : ℤ) - (wi : ℤ) : ℤ) : ℚ) by push_cast; ring]
      exact pyInt_half_close ((wf : ℤ) - (wi : ℤ))
    · rw [show (hf : ℚ) - (hi : ℚ) = (((hf : ℤ) - (hi : ℤ) : ℤ) : ℚ) by push_cast; ring]
      exact pyInt_half_close ((hf : ℤ) - (hi : ℤ))
  · cases relative
    · rfl
    · rfl

/-! ## C4 -/

/-- C4: when the frame and the mask frame differ in pixel dimensions, both
are placed at the origin of new canvases sized to the element-wise maximum
of the two sizes, the image canvas filled with black and the mask canvas
filled with 0 (fully transparent); the two results have equal sizes, so
compositing proceeds on matching shapes. -/
theorem reconcile_spec (im_img : PImage RGBPix) (im_mask : PImage ℕ)
    (hdiff : (im_img.width, im_img.height) ≠ (im_mask.width, im_mask.height)) :
    ((reconcile im_img im_mask).1.width = max im_img.width im_mask.width
      ∧ (reconcile im_img im_mask).1.height = max im_img.height im_mask.height
      ∧ (reconcile im_img im_mask).2.width = max im_img.width im_mask.width
      ∧ (reconcile im_img im_mask).2.height = max im_img.height im_mask.height)
    ∧ ((reconcile im_img im_mask).1.width, (reconcile im_img im_mask).1.height)
        = ((reconcile im_img im_mask).2.width, (reconcile im_img im_mask).2.height)
    ∧ (∀ x y, x < im_img.width → y < im_img.height →
        (reconcile im_img im_mask).1.pixel x y = im_img.pixel x y)
    ∧ (∀ x y, ¬(x < im_img.width ∧ y < im_img.height) →
        (reconcile im_img im_mask).1.pixel x y = blackRGB)
    ∧ (∀ x y, x < im_mask.width → y < im_mask.height →
        (reconcile im_img im_mask).2.pixel x y = im_mask.pixel x y)
    ∧ (∀ x y, ¬(x < im_mask.width ∧ y < im_mask.height) →
        (reconcile im_img im_mask).2.pixel x y = 0) := by
  have hr : reconcile im_img im_mask
      = (pilPaste (pilNew RGBPix (max im_img.width im_mask.width)
            (max im_img.height im_mask.height) blackRGB) im_img 0 0,
         pilPaste (pilNew ℕ (max im_img.width im_mask.width)
            (max im_img.height im_mask.height) 0) im_mask 0 0) := by
    unfold reconcile
    rw [if_pos hdiff]
  rw [hr]
  refine ⟨⟨rfl, rfl, rfl, rfl⟩, rfl, ?_, ?_, ?_, ?_⟩
  · intro x y hx hy
    simp only [pilPaste, pilNew]
    rw [if_pos ⟨Nat.zero_le x, by omega, Nat.zero_le y, by omega⟩, Nat.sub_zero, Nat.sub_zero]
  · intro x y hout
    simp only [pilPaste, pilNew]
    rw [if_neg (by omega)]
  · intro x y hx hy
    simp only [pilPaste, pilNew]
    rw [if_pos ⟨Nat.zero_le x, by omega, Nat.zero_le y, by omega⟩, Nat.sub_zero, Nat.sub_zero]
  · intro x y hout
    simp only [pilPaste, pilNew]
    rw [if_neg (by omega)]

/-- Witness for C4 at a concrete 2×1 frame against a 1×2 mask frame. -/
theorem reconcile_spec_witness :
    ((2 : ℕ), (1 : ℕ)) ≠ ((1 : ℕ), (2 : ℕ))
    ∧ (reconcile (PImage.mk 2 1 fun _ _ => (5, 6, 7)) (PImage.mk 1 2 fun _ _ => 9)).1.width = 2
    ∧ (reconcile (PImage.mk 2 1 fun _ _ => (5, 6, 7)) (PImage.mk 1 2 fun _ _ => 9)).1.pixel 1 1
        = blackRGB := by
  have h := reconcile_spec (PImage.mk 2 1 fun _ _ => (5, 6, 7))
    (PImage.mk 1 2 fun _ _ => 9) (by decide)
  exact ⟨by decide, h.1.1, h.2.2.2.1 1 1 (by decide)⟩

/-! ## C6 -/

/-- C6: on a non-mask clip, `to_mask` (extract channel `canal`, normalize to
[0,1]) followed by `to_RGB` yields a clip whose frame is a greyscale RGB
array in which every channel equals `255 ×` the normalized value of the
originally selected channel — i.e. the original 8-bit channel value. -/
theorem to_mask_to_RGB_roundtrip (c : MClip) (canal : ℕ) (t : ℚ) (x y : ℕ)
    (hmask : c.is_mask = false) (v : ℕ) (hv : c.frame t x y canal = (v : ℚ))
    (hv255 : v ≤ 255) :
    (to_mask canal c).is_mask = true
    ∧ (to_RGB (to_mask canal c)).is_mask = false
    ∧ (∀ ch, (to_RGB (to_mask canal c)).frame t x y ch
          = 255 * (c.frame t x y canal / 255)
        ∧ (to_RGB (to_mask canal c)).frame t x y ch = (v : ℚ)) := by
  have hm : to_mask canal c
      = { frame := fun t x y _ => 1 * c.frame t x y canal / 255, is_mask := true } := by
    unfold to_mask
    rw [hmask]
    simp
  have hval : ∀ ch, (to_RGB (to_mask canal c)).frame t x y ch = (v : ℚ) := by
    intro ch
    rw [hm]
    unfold to_RGB
    simp only [if_pos]
    have harg : (255 : ℚ) * (1 * c.frame t x y canal / 255) = (v : ℚ) := by
      rw [hv]
      field_simp
    show (uint8ofQ (255 * (1 * c.frame t x y canal / 255)) : ℚ) = (v : ℚ)
    rw [harg]
    unfold uint8ofQ
    rw [pyInt_natCast, Int.toNat_natCast, Nat.mod_eq_of_lt (by omega)]
  refine ⟨by rw [hm], by rw [hm]; rfl, fun ch => ⟨?_, hval ch⟩⟩
  rw [hval ch, hv]
  field_simp

/-- Witness for C6 at a concrete constant 200-valued channel. -/
theorem to_mask_to_RGB_roundtrip_witness :
    (to_RGB (to_mask 0 (MClip.mk (fun _ _ _ _ => (200 : ℚ)) false))).frame 0 0 0 0
      = ((200 : ℕ) : ℚ) :=
  (to_mask_to_RGB_roundtrip (MClip.mk (fun _ _ _ _ => (200 : ℚ)) false) 0 0 0 0
    rfl 200 (by simp) (by omega)).2.2 0 |>.2

/-! ## C7 -/

/-- C7: for a `BitmapClip` the missing one of `fps`/`duration` is computed
as `duration = frame_count / fps` (resp. `fps = frame_count / duration`),
supplying neither fails the assertion, and the frame at time `t ≥ 0` is the
decoded frame of index `⌊t·fps⌋`; in particular the scenario clip (2 frames,
`fps = 1`) has `duration = 2.0`, its frame at `t = 0` is the first decoded
frame and at `t = 1` the second. -/
theorem bitmapClip_spec :
    (∀ (cd : Char → Option RGBPix) (bf : List (List String)),
        bitmapClipMk cd bf none none = none)
    ∧ (∀ cd bf (f : ℚ) (d : Option ℚ) c, bitmapClipMk cd bf (some f) d = some c →
        c.fps = f ∧ c.duration = (bf.length : ℚ) / f)
    ∧ (∀ cd bf (d : ℚ) c, bitmapClipMk cd bf none (some d) = some c →
        c.duration = d ∧ c.fps = (bf.length : ℚ) / d)
    ∧ (∀ (c : BitmapClipS) (t : ℚ), 0 ≤ t → 0 ≤ c.fps →
        bitmapGetFrame c t = c.frames[(⌊t * c.fps⌋).toNat]?)
    ∧ (∀ c, bitmapClipMk DEFAULT_COLOR_DICT bitmapExample (some 1) none = some c →
        c.duration = 2
        ∧ bitmapGetFrame c 0 = some (decodeFrame DEFAULT_COLOR_DICT ["RRRRR", "RRBRR", "RRBRR"])
        ∧ bitmapGetFrame c 1 = some (decodeFrame DEFAULT_COLOR_DICT ["RGGGR", "RGGGR", "RGGGR"])) := by
  refine ⟨fun cd bf => rfl, ?_, ?_, ?_, ?_⟩
  · intro cd bf f d c hc
    simp only [bitmapClipMk, Option.some.injEq] at hc
    subst hc
    exact ⟨rfl, by simp [decodeFrame]⟩
  · intro cd bf d c hc
    simp only [bitmapClipMk, Option.some.injEq] at hc
    subst hc
    exact ⟨rfl, by simp [decodeFrame]⟩
  · intro c t ht hf
    unfold bitmapGetFrame
    rw [pyInt_eq, if_pos (mul_nonneg ht hf)]
  · intro c hc
    simp only [bitmapClipMk, Option.some.injEq] at hc
    subst hc
    refine ⟨by simp [bitmapExample], ?_, ?_⟩
    · unfold bitmapGetFrame
      simp only [zero_mul]
      rw [show pyInt 0 = 0 from pyInt_natCast 0]
      rfl
    · unfold bitmapGetFrame
      simp only [one_mul]
      rw [show pyInt 1 = 1 from pyInt_natCast 1]
      rfl

/-- Witness for C7: the scenario clip exists and the theorem's scenario
branch applies to it. -/
theorem bitmapClip_spec_witness :
    (bitmapClipMk DEFAULT_COLOR_DICT bitmapExample (some 1) none
      = some (BitmapClipS.mk (bitmapExample.map (decodeFrame DEFAULT_COLOR_DICT)) 1
          ((bitmapExample.length : ℚ) / 1)))
    ∧ (BitmapClipS.mk (bitmapExample.map (decodeFrame DEFAULT_COLOR_DICT)) 1
          ((bitmapExample.length : ℚ) / 1)).duration = 2 := by
  have h0 : bitmapClipMk DEFAULT_COLOR_DICT bitmapExample (some 1) none
      = some (BitmapClipS.mk (bitmapExample.map (decodeFrame DEFAULT_COLOR_DICT)) 1
          ((bitmapExample.length : ℚ) / 1)) := by
    simp [bitmapClipMk]
  exact ⟨h0, (bitmapClip_spec.2.2.2.2 _ h0).1⟩

/-! ## Lemmas about the clip heap -/

/-- Extending the heap does not change existing objects. -/
theorem getObj_append_lt (h : ClipHeap) (l : List ClipObj) (r : ClipRef)
    (hlt : r < h.length) : getObj (h ++ l) r = getObj h r :=
  List.getElem?_append_left hlt

/-- The first freshly appended object is found at the old length. -/
theorem getObj_append_len (h : ClipHeap) (x : ClipObj) (l : List ClipObj) :
    getObj (h ++ x :: l) h.length = some x := by
  unfold getObj
  rw [List.getElem?_append_right (le_refl _)]
  simp

/-- Writing one object leaves every other reference unchanged. -/
theorem getObj_set_ne (h : ClipHeap) (i j : ClipRef) (x : ClipObj)
    (hne : i ≠ j) : getObj (setObj h i x) j = getObj h j :=
  List.getElem?_set_ne hne

/-- Reading back a written object. -/
theorem getObj_set_eq (h : ClipHeap) (i : ClipRef) (x : ClipObj)
    (hlt : i < h.length) : getObj (setObj h i x) i = some x :=
  List.getElem?_set_self hlt

/-- Reading at an offset past the old length lands in the appended list. -/
theorem getObj_append_add (h : ClipHeap) (l : List ClipObj) (k : ℕ) :
    getObj (h ++ l) (h.length + k) = l[k]? := by
  unfold getObj
  rw [List.getElem?_append_right (Nat.le_add_right _ _)]
  simp

/-- A readable reference is within the heap. -/
theorem getObj_lt_length (h : ClipHeap) (r : ClipRef) (o : ClipObj)
    (hr : getObj h r = some o) : r < h.length :=
  (List.getElem?_eq_some.1 hr).1

/-! ## C5 -/

/-- C5: `copy()` produces a new clip object sharing its attribute values
with the original except `mask` and `audio`, which point to fresh objects
that are field-copies of the original's mask and audio; consequently a
subsequent `with_opacity` on the copy — which replaces the copy's mask by a
transformed fresh mask — leaves the original clip's object, its mask object
and its audio object untouched, while the new mask of the resulting clip
really carries the multiplied frame content. -/
theorem clipCopy_with_opacity_independent
    (h : ClipHeap) (r m a : ClipRef) (o mo ao : ClipObj) (alpha : ℚ)
    (hr : getObj h r = some o) (hmask : o.mask = some m)
    (hmo : getObj h m = some mo) (haud : o.audio = some a)
    (hao : getObj h a = some ao)
    (hmm : mo.mask = none) (hma : mo.audio = none) :
    ∃ o1 m1 a1,
      getObj (clipCopy h r).1 (clipCopy h r).2 = some o1
      ∧ o1.pix = o.pix
      ∧ o1.mask = some m1 ∧ m1 ≠ m ∧ getObj (clipCopy h r).1 m1 = some mo
      ∧ o1.audio = some a1 ∧ a1 ≠ a ∧ getObj (clipCopy h r).1 a1 = some ao
      ∧ getObj (with_opacity (clipCopy h r).1 (clipCopy h r).2 alpha).1 r = some o
      ∧ getObj (with_opacity (clipCopy h r).1 (clipCopy h r).2 alpha).1 m = some mo
      ∧ getObj (with_opacity (clipCopy h r).1 (clipCopy h r).2 alpha).1 a = some ao
      ∧ (∃ o2 m2 mo2,
          getObj (with_opacity (clipCopy h r).1 (clipCopy h r).2 alpha).1
              (with_opacity (clipCopy h r).1 (clipCopy h r).2 alpha).2 = some o2
          ∧ o2.mask = some m2
          ∧ getObj (with_opacity (clipCopy h r).1 (clipCopy h r).2 alpha).1 m2 = some mo2
          ∧ mo2.pix = alpha * mo.pix) := by
  obtain ⟨mom, moa, mop⟩ := mo
  simp only at hmm hma
  subst hmm
  subst hma
  have hrlt : r < h.length := getObj_lt_length h r o hr
  have hmlt : m < h.length := getObj_lt_length h m _ hmo
  have halt : a < h.length := getObj_lt_length h a ao hao
  set n := h.length with hn
  set o1 : ClipObj := { o with mask := some n, audio := some (n + 1) } with ho1
  have hao1 : getObj (h ++ [ClipObj.mk none none mop]) a = some ao := by
    rw [getObj_append_lt h _ a halt]
    exact hao
  have e1 : clipCopy h r = (h ++ [ClipObj.mk none none mop, ao, o1], n + 2) := by
    simp only [clipCopy, hr, hmask, haud, copyAttr, hmo, allocObj, hao1]
    simp [ho1, hn, List.append_assoc]
  set h1 : ClipHeap := h ++ [ClipObj.mk none none mop, ao, o1] with hh1
  have hh1len : h1.length = n + 3 := by simp [hh1, hn]
  set o2 : ClipObj := { o1 with mask := some (n + 3), audio := some (n + 4) } with ho2
  have f0 : getObj h1 r = some o := by
    rw [hh1, getObj_append_lt h _ r hrlt]
    exact hr
  have f0m : getObj h1 m = some (ClipObj.mk none none mop) := by
    rw [hh1, getObj_append_lt h _ m hmlt]
    exact hmo
  have f0a : getObj h1 a = some ao := by
    rw [hh1, getObj_append_lt h _ a halt]
    exact hao
  have f1 : getObj h1 (n + 2) = some o1 := by
    rw [hh1]
    have hx := getObj_append_add h [ClipObj.mk none none mop, ao, o1] 2
    rw [← hn] at hx
    simpa using hx
  have f2 : getObj h1 n = some (ClipObj.mk none none mop) := by
    rw [hh1]
    have hx := getObj_append_add h [ClipObj.mk none none mop, ao, o1] 0
    rw [← hn] at hx
    simpa using hx
  have f3 : getObj h1 (n + 1) = some ao := by
    rw [hh1]
    have hx := getObj_append_add h [ClipObj.mk none none mop, ao, o1] 1
    rw [← hn] at hx
    simpa using hx
  have e2a : clipCopy h1 (n + 2) = (h1 ++ [ClipObj.mk none none mop, ao, o2], n + 5) := by
    have hb1 : n + 1 < h1.length := by rw [hh1len]; omega
    have fao : getObj (h1 ++ [ClipObj.mk none none mop]) (n + 1) = some ao := by
      rw [getObj_append_lt h1 _ (n + 1) hb1]
      exact f3
    simp only [clipCopy, f1, ho1, copyAttr, f2, allocObj, fao]
    simp [ho2, ho1, hh1len, List.append_assoc]
  set h2 : ClipHeap := h1 ++ [ClipObj.mk none none mop, ao, o2] with hh2
  clear_value n o1 h1 o2 h2
  have hh2len : h2.length = n + 6 := by simp [hh2, hh1len]
  have g1 : getObj h2 (n + 5) = some o2 := by
    rw [hh2]
    have hx := getObj_append_add h1 [ClipObj.mk none none mop, ao, o2] 2
    rw [hh1len] at hx
    simpa using hx
  have g2 : getObj h2 (n + 3) = some (ClipObj.mk none none mop) := by
    rw [hh2]
    have hx := getObj_append_add h1 [ClipObj.mk none none mop, ao, o2] 0
    rw [hh1len] at hx
    simpa using hx
  have e2b : maskImageTransform h2 (n + 3) (fun pic => alpha * pic)
      = (setObj (h2 ++ [ClipObj.mk none none mop]) (n + 6)
          (ClipObj.mk none none (alpha * mop)), n + 6) := by
    have g3 : getObj (h2 ++ [ClipObj.mk none none mop]) (n + 6)
        = some (ClipObj.mk none none mop) := by
      have hx := getObj_append_add h2 [ClipObj.mk none none mop] 0
      rw [hh2len] at hx
      simpa using hx
    simp only [maskImageTransform, clipCopy, g2, copyAttr, allocObj]
    simp [hh2len, g3]
  have e2 : with_opacity h1 (n + 2) alpha
      = (setObj (setObj (h2 ++ [ClipObj.mk none none mop]) (n + 6)
            (ClipObj.mk none none (alpha * mop)))
          (n + 5) { o2 with mask := some (n + 6) }, n + 5) := by
    simp only [with_opacity, e2a, ← hh2, g1, ho2, ho1, e2b]
  have hlen3 : (h2 ++ [ClipObj.mk none none mop]).length = n + 7 := by
    simp [hh2len]
  rw [e1]
  simp only [e2]
  have hr2 : r < h2.length := by
    rw [hh2len]; exact Nat.lt_of_lt_of_le hrlt (by omega)
  have hm2 : m < h2.length := by
    rw [hh2len]; exact Nat.lt_of_lt_of_le hmlt (by omega)
  have ha2 : a < h2.length := by
    rw [hh2len]; exact Nat.lt_of_lt_of_le halt (by omega)
  have hr1 : r < h1.length := by
    rw [hh1len]; exact Nat.lt_of_lt_of_le hrlt (by omega)
  have hm1 : m < h1.length := by
    rw [hh1len]; exact Nat.lt_of_lt_of_le hmlt (by omega)
  have ha1 : a < h1.length := by
    rw [hh1len]; exact Nat.lt_of_lt_of_le halt (by omega)
  have hner1 : n + 5 ≠ r := (Nat.ne_of_lt (Nat.lt_of_lt_of_le hrlt (by omega))).symm
  have hner2 : n + 6 ≠ r := (Nat.ne_of_lt (Nat.lt_of_lt_of_le hrlt (by omega))).symm
  have hnem1 : n + 5 ≠ m := (Nat.ne_of_lt (Nat.lt_of_lt_of_le hmlt (by omega))).symm
  have hnem2 : n + 6 ≠ m := (Nat.ne_of_lt (Nat.lt_of_lt_of_le hmlt (by omega))).symm
  have hnea1 : n + 5 ≠ a := (Nat.ne_of_lt (Nat.lt_of_lt_of_le halt (by omega))).symm
  have hnea2 : n + 6 ≠ a := (Nat.ne_of_lt (Nat.lt_of_lt_of_le halt (by omega))).symm
  have hne56 : n + 5 ≠ n + 6 := by omega
  have hlt6 : n + 6 < (h2 ++ [ClipObj.mk none none mop]).length := by rw [hlen3]; omega
  have hlt5 : n + 5
      < ((h2 ++ [ClipObj.mk none none mop]).set (n + 6)
          (ClipObj.mk none none (alpha * mop))).length := by
    rw [List.length_set, hlen3]
    omega
  refine ⟨o1, n, n + 1, f1, by rw [ho1], by rw [ho1], (Nat.ne_of_lt hmlt).symm, f2,
    by rw [ho1], (Nat.ne_of_lt (Nat.lt_of_lt_of_le halt (by omega))).symm, f3,
    ?_, ?_, ?_, ?_⟩
  · rw [getObj_set_ne _ (n + 5) r _ hner1, getObj_set_ne _ (n + 6) r _ hner2,
      getObj_append_lt h2 _ r hr2, hh2, getObj_append_lt h1 _ r hr1]
    exact f0
  · rw [getObj_set_ne _ (n + 5) m _ hnem1, getObj_set_ne _ (n + 6) m _ hnem2,
      getObj_append_lt h2 _ m hm2, hh2, getObj_append_lt h1 _ m hm1]
    exact f0m
  · rw [getObj_set_ne _ (n + 5) a _ hnea1, getObj_set_ne _ (n + 6) a _ hnea2,
      getObj_append_lt h2 _ a ha2, hh2, getObj_append_lt h1 _ a ha1]
    exact f0a
  · refine ⟨{ o2 with mask := some (n + 6) }, n + 6, ClipObj.mk none none (alpha * mop),
      ?_, rfl, ?_, rfl⟩
    · exact getObj_set_eq _ (n + 5) _ hlt5
    · rw [getObj_set_ne _ (n + 5) (n + 6) _ hne56]
      exact getObj_set_eq _ (n + 6) _ hlt6

/-- Witness for C5: a three-object heap (mask at 0, audio at 1, clip at 2);
after copying the clip and halving the copy's opacity, the original mask
object is unchanged. -/
theorem clipCopy_with_opacity_independent_witness :
    (getObj [ClipObj.mk none none 1, ClipObj.mk none none 0, ClipObj.mk (some 0) (some 1) 5] 2
        = some (ClipObj.mk (some 0) (some 1) 5))
    ∧ getObj (with_opacity
        (clipCopy [ClipObj.mk none none 1, ClipObj.mk none none 0,
            ClipObj.mk (some 0) (some 1) 5] 2).1
        (clipCopy [ClipObj.mk none none 1, ClipObj.mk none none 0,
            ClipObj.mk (some 0) (some 1) 5] 2).2 (1 / 2)).1 0
      = some (ClipObj.mk none none 1) := by
  have h := clipCopy_with_opacity_independent
    [ClipObj.mk none none 1, ClipObj.mk none none 0, ClipObj.mk (some 0) (some 1) 5]
    2 0 1 (ClipObj.mk (some 0) (some 1) 5) (ClipObj.mk none none 1)
    (ClipObj.mk none none 0) (1 / 2) rfl rfl rfl rfl rfl rfl rfl
  obtain ⟨o1, m1, a1, h1, h2, h3, h4, h5, h6, h7, h8, hB1, hB2, hB3, hC⟩ := h
  exact ⟨rfl, hB2⟩

/-! ## C8 -/

/-- Counterexample for C8 as frozen: `ColorClip(size, color=5, is_mask=False)`
raises (`Color has to contain RGB of the clip`: a numeric scalar has no
`__getitem__`), but the claim's enumeration of invalid colors — non-scalar
when `is_mask` is true, string-typed when `is_mask` is false — does not
cover a scalar RGB color. -/
theorem colorClip_scalar_cx :
    colorClipValidate false (some (PyColor.scalar 5)) = some CCError.colorNotRGB
    ∧ claimedColorInvalid false (some (PyColor.scalar 5)) = false :=
  ⟨rfl, rfl⟩

/-- C8 (amended): construction raises an error exactly when the arguments
are invalid — for `TextClip`: invalid font, neither text nor (non-empty)
filename, width missing for caption, both height and font size missing for
caption, both font size and width missing for label, or an unrecognized
method; for `ColorClip`: a non-scalar color with `is_mask`, or a color that
is a string or a non-indexable numeric scalar without `is_mask` — and the
`TextClip` error outcome never depends on the measurement boundary, i.e. it
is decided before any layout work. -/
theorem construction_errors_iff (measure2 : ℕ → String → ℕ × ℕ)
    (fontValid : Bool) (textArg filenameArg : Option String)
    (fileText : String → String) (font_size : Option ℕ)
    (size : Option ℕ × Option ℕ) (method : String)
    (is_mask : Bool) (color : Option PyColor) :
    ((∃ e, textClipInit measure2 fontValid textArg filenameArg fileText font_size size method
        = Except.error e)
      ↔ (fontValid = false
          ∨ (textArg = none ∧ (filenameArg = none ∨ filenameArg = some ""))
          ∨ (method = "caption" ∧ size.1 = none)
          ∨ (method = "caption" ∧ size.2 = none ∧ font_size = none)
          ∨ (method = "label" ∧ font_size = none ∧ size.1 = none)
          ∨ (method ≠ "caption" ∧ method ≠ "label")))
    ∧ (∀ measure2' : ℕ → String → ℕ × ℕ,
        errOf (textClipInit measure2 fontValid textArg filenameArg fileText font_size size
            method)
          = errOf (textClipInit measure2' fontValid textArg filenameArg fileText font_size
            size method))
    ∧ ((∃ e, colorClipValidate is_mask color = some e)
        ↔ (claimedColorInvalid is_mask color = true
            ∨ (is_mask = false ∧ ∃ q, color = some (PyColor.scalar q)))) := by
  obtain ⟨wOpt, hOpt⟩ := size
  have hcl : ("caption" : String) ≠ "label" := by decide
  refine ⟨?_, ?_, ?_⟩
  · cases fontValid with
    | false => simp [textClipInit]
    | true =>
        have htext : ∀ txt : String,
            ((∃ e, textClipInit measure2 true (some txt) none fileText font_size
                (wOpt, hOpt) method = Except.error e)
              ↔ ((method = "caption" ∧ wOpt = none)
                  ∨ (method = "caption" ∧ hOpt = none ∧ font_size = none)
                  ∨ (method = "label" ∧ font_size = none ∧ wOpt = none)
                  ∨ (method ≠ "caption" ∧ method ≠ "label"))) := by
          intro txt
          by_cases hcap : method = "caption"
          · subst hcap
            rcases wOpt with _ | w
            · simp [textClipInit]
            · by_cases hhfs : hOpt = none ∧ font_size = none
              · simp [textClipInit, hhfs]
              · simp [textClipInit, hhfs, hcl]
          · by_cases hlab : method = "label"
            · subst hlab
              by_cases hfw : font_size = none ∧ wOpt = none
              · simp [textClipInit, hfw, hcl.symm]
              · simp [textClipInit, hfw, hcl.symm]
            · simp [textClipInit, hcap, hlab]
        rcases filenameArg with _ | fn
        · rcases textArg with _ | txt
          · simp [textClipInit]
          · rw [show textClipInit measure2 true (some txt) none fileText font_size
                (wOpt, hOpt) method
              = textClipInit measure2 true (some txt) none fileText font_size
                (wOpt, hOpt) method from rfl]
            rw [htext txt]
            simp
        · by_cases hfn : fn = ""
          · subst hfn
            rcases textArg with _ | txt
            · simp [textClipInit]
            · have heq : textClipInit measure2 true (some txt) (some "") fileText font_size
                  (wOpt, hOpt) method
                = textClipInit measure2 true (some txt) none fileText font_size
                  (wOpt, hOpt) method := by
                simp [textClipInit]
              rw [heq, htext txt]
              simp
          · have heq : textClipInit measure2 true textArg (some fn) fileText font_size
                (wOpt, hOpt) method
              = textClipInit measure2 true (some (fileText fn)) none fileText font_size
                (wOpt, hOpt) method := by
              simp [textClipInit, hfn]
            rw [heq, htext (fileText fn)]
            simp [hfn]
  · intro measure2'
    cases fontValid with
    | false => simp [textClipInit]
    | true =>
        have htext : ∀ txt : String,
            errOf (textClipInit measure2 true (some txt) none fileText font_size
                (wOpt, hOpt) method)
              = errOf (textClipInit measure2' true (some txt) none fileText font_size
                (wOpt, hOpt) method) := by
          intro txt
          by_cases hcap : method = "caption"
          · subst hcap
            rcases wOpt with _ | w
            · simp [textClipInit]
            · by_cases hhfs : hOpt = none ∧ font_size = none
              · simp [textClipInit, hhfs]
              · simp [textClipInit, hhfs, errOf]
          · by_cases hlab : method = "label"
            · subst hlab
              by_cases hfw : font_size = none ∧ wOpt = none
              · simp [textClipInit, hfw, hcl.symm]
              · simp [textClipInit, hfw, hcl.symm, errOf]
            · simp [textClipInit, hcap, hlab]
        rcases filenameArg with _ | fn
        · rcases textArg with _ | txt
          · simp [textClipInit]
          · exact htext txt
        · by_cases hfn : fn = ""
          · subst hfn
            rcases textArg with _ | txt
            · simp [textClipInit]
            · have heq : ∀ m2 : ℕ → String → ℕ × ℕ,
                  textClipInit m2 true (some txt) (some "") fileText font_size
                    (wOpt, hOpt) method
                  = textClipInit m2 true (some txt) none fileText font_size
                    (wOpt, hOpt) method := by
                intro m2
                simp [textClipInit]
              rw [heq measure2, heq measure2']
              exact htext txt
          · have heq : ∀ m2 : ℕ → String → ℕ × ℕ,
                textClipInit m2 true textArg (some fn) fileText font_size
                  (wOpt, hOpt) method
                = textClipInit m2 true (some (fileText fn)) none fileText font_size
                  (wOpt, hOpt) method := by
              intro m2
              simp [textClipInit, hfn]
            rw [heq measure2, heq measure2']
            exact htext (fileText fn)
  · rcases color with _ | c
    · cases is_mask <;>
        simp [colorClipValidate, claimedColorInvalid]
    · rcases c with q | l | s <;> cases is_mask <;>
        simp [colorClipValidate, claimedColorInvalid, npIsScalar, hasGetitem]

/-- Witness for C8: a valid caption configuration produces no error, an
unknown method produces one, and the theorem's independence part applies. -/
theorem construction_errors_iff_witness :
    (¬ ∃ e, textClipInit measureM true (some "hi") none (fun _ => "") none
        (some 100, some 50) "caption" = Except.error e)
    ∧ (∃ e, textClipInit measureM true (some "hi") none (fun _ => "") none
        (some 100, some 50) "wrong" = Except.error e)
    ∧ errOf (textClipInit measureM true (some "hi") none (fun _ => "") none
        (some 100, some 50) "caption")
      = errOf (textClipInit measure0 true (some "hi") none (fun _ => "") none
        (some 100, some 50) "caption")
    ∧ (∃ e, colorClipValidate false (some (PyColor.str "red")) = some e) := by
  refine ⟨?_, ?_, ?_, ?_⟩
  · rw [(construction_errors_iff measureM true (some "hi") none (fun _ => "") none
      (some 100, some 50) "caption" false none).1]
    decide
  · rw [(construction_errors_iff measureM true (some "hi") none (fun _ => "") none
      (some 100, some 50) "wrong" false none).1]
    decide
  · exact (construction_errors_iff measureM true (some "hi") none (fun _ => "") none
      (some 100, some 50) "caption" false none).2.1 measure0
  · rw [(construction_errors_iff measureM true (some "hi") none (fun _ => "") none
      (some 100, some 50) "caption" false (some (PyColor.str "red"))).2.2]
    exact Or.inl (by decide)

/-! ## C9 -/

/-- C9: on a static image clip, the eager `ImageClip.image_transform` (apply
the pixel function once to the frame at `t = 0` and store the result) is
observationally equivalent, at every time `t`, to the general lazy
`VideoClip.image_transform` (wrap the pixel function around the frame
function). -/
theorem image_transform_eager_eq_lazy {Frame : Type} (image_func : Frame → Frame)
    (c : IClip Frame) (t : ℚ) :
    (iclipToVClip (iclip_image_transform image_func c)).make_frame t
      = (vclip_image_transform image_func (iclipToVClip c)).make_frame t := rfl

end Moviepy
